import Mathlib

/-!
Verification of `cityofsurrey/landscape-node` (`deploy.js` / `src/cli.js`).

Shallow embedding notes:
* JSON values coming back from the Landscape API (`id`, `computer_id`,
  `activity_status`, `hostname`) are modelled as `String`s.
* `JSON.stringify` (used by `isEqual`) is modelled character-for-character,
  including its escaping of `\x22`, `\x5c` and control characters, with
  Lean `Char` (Unicode scalar values) standing for JS string elements.
* JS exceptions (reading a property of `undefined`) are modelled by `Option`
  results: `none` means the run crashes at that point.
* `String.toLowerCase` / string comparison are modelled characterwise
  (`Char.toLower`, ASCII) over the underlying character lists, with the
  lexicographic order on those lists standing for JS string `<`/`>`.
-/

/-- A server record, as returned by `get-computers` (only the fields the
script uses). -/
structure Server where
  id : String
  hostname : String
deriving DecidableEq, Repr

/-- An activity record, as returned by `get-activities` (only the fields the
script uses). -/
structure Activity where
  id : String
  computer_id : String
  activity_status : String
deriving DecidableEq, Repr

/-- One record of the detailed activity report, mirroring the object literal
pushed in `generateDetailedActivityReport`. -/
structure ReportRecord where
  computer_name : String
  computer_id : String
  activity_id : String
  activity_status : String
deriving DecidableEq, Repr

/-- An activity report: an ordered list of records. -/
abbrev Report := List ReportRecord

/-- `const gSummaryRecord = '** ALL (Summary) **'` — the sentinel name of the
summary record. -/
def gSummaryRecord : String := "** ALL (Summary) **"

/-! ### A model of `JSON.stringify`, used by `isEqual`

`isEqual(report1, report2)` compares `JSON.stringify(report1)` with
`JSON.stringify(report2)`.  We model the serialisation as a `List Char` and
prove it injective, so that string comparison coincides with structural
equality of reports. -/

/-- The lower-case hex digit for `n < 16`, as produced by `JSON.stringify`
for `\u00XX` escapes. -/
def hexDigitChar (n : Nat) : Char :=
  if n < 10 then Char.ofNat (48 + n) else Char.ofNat (87 + n)

/-- JSON string-escaping of a single character, as in ECMA-262
`QuoteJSONString`: `\x22` and `\x5c` are backslash-escaped, the named control
characters get their two-character escapes, the remaining control characters
become `\u00XX`, and every other character is emitted as itself. -/
def escapeChar (c : Char) : List Char :=
  if c = '\x22' then ['\x5c', '\x22']
  else if c = '\x5c' then ['\x5c', '\x5c']
  else if c = '\x08' then ['\x5c', 'b']
  else if c = '\x09' then ['\x5c', 't']
  else if c = '\x0a' then ['\x5c', 'n']
  else if c = '\x0c' then ['\x5c', 'f']
  else if c = '\x0d' then ['\x5c', 'r']
  else if c.toNat < 32 then
    ['\x5c', 'u', '0', '0', hexDigitChar (c.toNat / 16), hexDigitChar (c.toNat % 16)]
  else [c]

/-- JSON escaping of a character sequence. -/
def escList (s : List Char) : List Char :=
  (s.map escapeChar).flatten

/-- The JSON serialisation of a string: a quoted, escaped character run. -/
def jsonStringChars (s : String) : List Char :=
  '\x22' :: (escList s.data ++ ['\x22'])

/-- The characters of a JSON object key followed by `:` (keys used by the
report records contain no characters needing escapes). -/
def keyChars (k : String) : List Char :=
  '\x22' :: (k.data ++ ['\x22', ':'])

/-- The JSON serialisation of one report record, with the keys in insertion
order, exactly as `JSON.stringify` renders the object literal built by
`generateDetailedActivityReport`. -/
def jsonRecordChars (r : ReportRecord) : List Char :=
  '\x7b' :: (keyChars "computer_name" ++ jsonStringChars r.computer_name ++
    ',' :: (keyChars "computer_id" ++ jsonStringChars r.computer_id ++
    ',' :: (keyChars "activity_id" ++ jsonStringChars r.activity_id ++
    ',' :: (keyChars "activity_status" ++ jsonStringChars r.activity_status ++
    ['\x7d']))))

/-- The comma-separated serialisations of a list of records (the inside of the
JSON array). -/
def jsonRecordsChars : List ReportRecord → List Char
  | [] => []
  | [r] => jsonRecordChars r
  | r :: rest => jsonRecordChars r ++ ',' :: jsonRecordsChars rest

/-- `JSON.stringify` of a whole report (a JS array of records). -/
def jsonReportChars (report : Report) : List Char :=
  '[' :: (jsonRecordsChars report ++ [']'])

/-- `JSON.stringify` of the loop's report variable, which is `null` before the
first iteration. -/
def jsonOptChars : Option Report → List Char
  | none => "null".data
  | some report => jsonReportChars report

/-- `function isEqual(report1, report2)` from `deploy.js` / `cli.js`: compares
the two JSON serialisations for string equality. -/
def isEqual (report1 report2 : Option Report) : Bool :=
  jsonOptChars report1 == jsonOptChars report2

/-! #### Injectivity of the serialisation -/

/-- Value of a lower-case hex digit character. -/
def hexVal (d : Char) : Option Nat :=
  if 48 ≤ d.toNat ∧ d.toNat ≤ 57 then some (d.toNat - 48)
  else if 97 ≤ d.toNat ∧ d.toNat ≤ 102 then some (d.toNat - 87)
  else none

/-- Decoder for a single serialised character; a left inverse to `escapeChar`
used to establish injectivity of the serialisation. -/
def descape1 : List Char → Option (Char × List Char)
  | [] => none
  | c :: r =>
    if c = '\x5c' then
      match r with
      | [] => none
      | d :: r1 =>
        if d = '\x22' then some ('\x22', r1)
        else if d = '\x5c' then some ('\x5c', r1)
        else if d = 'b' then some ('\x08', r1)
        else if d = 't' then some ('\x09', r1)
        else if d = 'n' then some ('\x0a', r1)
        else if d = 'f' then some ('\x0c', r1)
        else if d = 'r' then some ('\x0d', r1)
        else if d = 'u' then
          match r1 with
          | z1 :: z2 :: d1 :: d2 :: r2 =>
            if z1 = '0' ∧ z2 = '0' then
              match hexVal d1, hexVal d2 with
              | some v1, some v2 => some (Char.ofNat (16 * v1 + v2), r2)
              | _, _ => none
            else none
          | _ => none
        else none
    else some (c, r)

theorem hexVal_hexDigitChar : ∀ n, n < 16 → hexVal (hexDigitChar n) = some n := by
  decide

theorem descape1_escapeChar (c : Char) (r : List Char) :
    descape1 (escapeChar c ++ r) = some (c, r) := by
  by_cases h1 : c = '\x22'
  · subst h1; rfl
  by_cases h2 : c = '\x5c'
  · subst h2; rfl
  by_cases h3 : c = '\x08'
  · subst h3; rfl
  by_cases h4 : c = '\x09'
  · subst h4; rfl
  by_cases h5 : c = '\x0a'
  · subst h5; rfl
  by_cases h6 : c = '\x0c'
  · subst h6; rfl
  by_cases h7 : c = '\x0d'
  · subst h7; rfl
  by_cases h8 : c.toNat < 32
  · rw [escapeChar, if_neg h1, if_neg h2, if_neg h3, if_neg h4, if_neg h5, if_neg h6,
      if_neg h7, if_pos h8]
    have hd1 : hexVal (hexDigitChar (c.toNat / 16)) = some (c.toNat / 16) :=
      hexVal_hexDigitChar _ (by omega)
    have hd2 : hexVal (hexDigitChar (c.toNat % 16)) = some (c.toNat % 16) :=
      hexVal_hexDigitChar _ (by
        have : c.toNat % 16 < 16 := Nat.mod_lt _ (by omega)
        omega)
    have hmn : 16 * (c.toNat / 16) + c.toNat % 16 = c.toNat := by
      have := Nat.div_add_mod c.toNat 16
      omega
    simp only [List.cons_append, List.nil_append, descape1, hd1, hd2, reduceIte,
      reduceCtorEq, hmn, Char.ofNat_toNat]
    rw [if_neg (show ¬('u' : Char) = '\x22' by decide),
      if_neg (show ¬('u' : Char) = '\x5c' by decide),
      if_neg (show ¬('u' : Char) = 'b' by decide),
      if_neg (show ¬('u' : Char) = 't' by decide),
      if_neg (show ¬('u' : Char) = 'n' by decide),
      if_neg (show ¬('u' : Char) = 'f' by decide),
      if_neg (show ¬('u' : Char) = 'r' by decide)]
    simp
  · rw [escapeChar, if_neg h1, if_neg h2, if_neg h3, if_neg h4, if_neg h5, if_neg h6,
      if_neg h7, if_neg h8]
    simp only [List.cons_append, List.nil_append, descape1]
    rw [if_neg h2]

theorem escapeChar_shape (c : Char) :
    ∃ d t, escapeChar c = d :: t ∧ d ≠ '\x22' := by
  by_cases h1 : c = '\x22'
  · subst h1; exact ⟨_, _, rfl, by decide⟩
  by_cases h2 : c = '\x5c'
  · subst h2; exact ⟨_, _, rfl, by decide⟩
  by_cases h3 : c = '\x08'
  · subst h3; exact ⟨_, _, rfl, by decide⟩
  by_cases h4 : c = '\x09'
  · subst h4; exact ⟨_, _, rfl, by decide⟩
  by_cases h5 : c = '\x0a'
  · subst h5; exact ⟨_, _, rfl, by decide⟩
  by_cases h6 : c = '\x0c'
  · subst h6; exact ⟨_, _, rfl, by decide⟩
  by_cases h7 : c = '\x0d'
  · subst h7; exact ⟨_, _, rfl, by decide⟩
  by_cases h8 : c.toNat < 32
  · rw [escapeChar, if_neg h1, if_neg h2, if_neg h3, if_neg h4, if_neg h5, if_neg h6,
      if_neg h7, if_pos h8]
    exact ⟨_, _, rfl, by decide⟩
  · rw [escapeChar, if_neg h1, if_neg h2, if_neg h3, if_neg h4, if_neg h5, if_neg h6,
      if_neg h7, if_neg h8]
    exact ⟨c, [], rfl, h1⟩

/-- Fuelled decoder for a serialised string body terminated by an unescaped
quote; a left inverse to `escList` used to establish injectivity. -/
def descapeStr : Nat → List Char → Option (List Char × List Char)
  | _, [] => none
  | 0, _ :: _ => none
  | fuel + 1, c :: l =>
    if c = '\x22' then some ([], l)
    else
      match descape1 (c :: l) with
      | none => none
      | some (d, r) =>
        match descapeStr fuel r with
        | none => none
        | some (s, r2) => some (d :: s, r2)

theorem descapeStr_escList :
    ∀ (s r : List Char) (fuel : Nat), s.length < fuel →
      descapeStr fuel (escList s ++ '\x22' :: r) = some (s, r) := by
  intro s
  induction s with
  | nil =>
    intro r fuel hf
    match fuel, hf with
    | fuel + 1, _ =>
      simp [escList, descapeStr]
  | cons c s ih =>
    intro r fuel hf
    match fuel, hf with
    | fuel + 1, hf =>
      obtain ⟨d, t, hdt, hd⟩ := escapeChar_shape c
      have hsplit : escList (c :: s) ++ '\x22' :: r =
          d :: (t ++ (escList s ++ '\x22' :: r)) := by
        simp [escList, hdt]
      rw [hsplit]
      have hde : descape1 (d :: (t ++ (escList s ++ '\x22' :: r))) =
          some (c, escList s ++ '\x22' :: r) := by
        rw [show d :: (t ++ (escList s ++ '\x22' :: r)) =
          (d :: t) ++ (escList s ++ '\x22' :: r) from rfl, ← hdt]
        exact descape1_escapeChar c _
      have hrec := ih r fuel (by simp at hf; omega)
      simp only [descapeStr, if_neg hd, hde, hrec]

theorem escList_quote_inj {s1 s2 r1 r2 : List Char}
    (h : escList s1 ++ '\x22' :: r1 = escList s2 ++ '\x22' :: r2) :
    s1 = s2 ∧ r1 = r2 := by
  have h1 := descapeStr_escList s1 r1 (s1.length + s2.length + 1) (by omega)
  have h2 := descapeStr_escList s2 r2 (s1.length + s2.length + 1) (by omega)
  rw [h, h2] at h1
  simp only [Option.some.injEq, Prod.mk.injEq] at h1
  exact ⟨h1.1.symm, h1.2.symm⟩

theorem jsonStringChars_append_inj {s1 s2 : String} {t1 t2 : List Char}
    (h : jsonStringChars s1 ++ t1 = jsonStringChars s2 ++ t2) :
    s1 = s2 ∧ t1 = t2 := by
  simp only [jsonStringChars, List.cons_append, List.append_assoc, List.cons.injEq,
    List.nil_append, true_and] at h
  have := escList_quote_inj h
  exact ⟨String.ext this.1, this.2⟩

theorem jsonRecordChars_append_inj {a b : ReportRecord} {t1 t2 : List Char}
    (h : jsonRecordChars a ++ t1 = jsonRecordChars b ++ t2) :
    a = b ∧ t1 = t2 := by
  obtain ⟨a1, a2, a3, a4⟩ := a
  obtain ⟨b1, b2, b3, b4⟩ := b
  simp only [jsonRecordChars, List.append_assoc, List.cons_append, List.nil_append,
    List.cons.injEq, true_and] at h
  replace h := List.append_cancel_left h
  obtain ⟨e1, h⟩ := jsonStringChars_append_inj h
  simp only [List.cons.injEq, true_and] at h
  replace h := List.append_cancel_left h
  obtain ⟨e2, h⟩ := jsonStringChars_append_inj h
  simp only [List.cons.injEq, true_and] at h
  replace h := List.append_cancel_left h
  obtain ⟨e3, h⟩ := jsonStringChars_append_inj h
  simp only [List.cons.injEq, true_and] at h
  replace h := List.append_cancel_left h
  obtain ⟨e4, h⟩ := jsonStringChars_append_inj h
  simp only [List.cons.injEq, true_and] at h
  exact ⟨by rw [e1, e2, e3, e4], h⟩

/-- The separator-and-rest part following the first record in a serialised
record list. -/
def jsonSep : List ReportRecord → List Char
  | [] => []
  | r :: rest => ',' :: jsonRecordsChars (r :: rest)

theorem jsonRecordsChars_cons (r : ReportRecord) (rest : List ReportRecord) :
    jsonRecordsChars (r :: rest) = jsonRecordChars r ++ jsonSep rest := by
  cases rest with
  | nil => simp [jsonRecordsChars, jsonSep]
  | cons r2 rest2 => simp [jsonRecordsChars, jsonSep]

theorem jsonRecordsChars_cons_head (r : ReportRecord) (rest : List ReportRecord) :
    ∃ X, jsonRecordsChars (r :: rest) = '\x7b' :: X := by
  rw [jsonRecordsChars_cons]
  obtain ⟨a1, a2, a3, a4⟩ := r
  exact ⟨_, rfl⟩

theorem jsonRecordsChars_bracket_inj :
    ∀ (l1 l2 : List ReportRecord) {t1 t2 : List Char},
      jsonRecordsChars l1 ++ ']' :: t1 = jsonRecordsChars l2 ++ ']' :: t2 →
      l1 = l2 ∧ t1 = t2 := by
  intro l1
  induction l1 with
  | nil =>
    intro l2 t1 t2 h
    cases l2 with
    | nil =>
      simp only [jsonRecordsChars, List.nil_append, List.cons.injEq, true_and] at h
      exact ⟨rfl, h⟩
    | cons r2 rest2 =>
      exfalso
      obtain ⟨X, hX⟩ := jsonRecordsChars_cons_head r2 rest2
      rw [hX] at h
      simp only [jsonRecordsChars, List.nil_append, List.cons_append, List.cons.injEq] at h
      exact absurd h.1 (by decide)
  | cons r1 rest1 ih =>
    intro l2 t1 t2 h
    cases l2 with
    | nil =>
      exfalso
      obtain ⟨X, hX⟩ := jsonRecordsChars_cons_head r1 rest1
      rw [hX] at h
      simp only [jsonRecordsChars, List.nil_append, List.cons_append, List.cons.injEq] at h
      exact absurd h.1 (by decide)
    | cons r2 rest2 =>
      rw [jsonRecordsChars_cons, jsonRecordsChars_cons, List.append_assoc,
        List.append_assoc] at h
      obtain ⟨hr, h2⟩ := jsonRecordChars_append_inj h
      cases rest1 with
      | nil =>
        cases rest2 with
        | nil =>
          simp only [jsonSep, List.nil_append, List.cons.injEq, true_and] at h2
          exact ⟨by rw [hr], h2⟩
        | cons r2b rest2b =>
          exfalso
          simp only [jsonSep, List.nil_append, List.cons_append, List.cons.injEq] at h2
          exact absurd h2.1 (by decide)
      | cons r1b rest1b =>
        cases rest2 with
        | nil =>
          exfalso
          simp only [jsonSep, List.nil_append, List.cons_append, List.cons.injEq] at h2
          exact absurd h2.1 (by decide)
        | cons r2b rest2b =>
          simp only [jsonSep, List.cons_append, List.cons.injEq, true_and] at h2
          obtain ⟨hrest, ht⟩ := ih (r2b :: rest2b) h2
          exact ⟨by rw [hr, hrest], ht⟩

theorem jsonReportChars_inj {l1 l2 : Report}
    (h : jsonReportChars l1 = jsonReportChars l2) : l1 = l2 := by
  simp only [jsonReportChars, List.cons.injEq, true_and] at h
  have h2 : jsonRecordsChars l1 ++ ']' :: ([] : List Char) =
      jsonRecordsChars l2 ++ ']' :: ([] : List Char) := h
  exact (jsonRecordsChars_bracket_inj l1 l2 h2).1

theorem jsonOptChars_inj :
    ∀ {o1 o2 : Option Report}, jsonOptChars o1 = jsonOptChars o2 → o1 = o2 := by
  intro o1 o2 h
  match o1, o2 with
  | none, none => rfl
  | none, some r =>
    exfalso
    have hn : ("null".data : List Char) = 'n' :: 'u' :: 'l' :: 'l' :: [] := rfl
    simp only [jsonOptChars, jsonReportChars, hn, List.cons.injEq] at h
    exact absurd h.1 (by decide)
  | some r, none =>
    exfalso
    have hn : ("null".data : List Char) = 'n' :: 'u' :: 'l' :: 'l' :: [] := rfl
    simp only [jsonOptChars, jsonReportChars, hn, List.cons.injEq] at h
    exact absurd h.1 (by decide)
  | some r1, some r2 =>
    exact congrArg some (jsonReportChars_inj h)

/-- The equality check is exactly structural equality of the two (possibly
`null`) reports. -/
theorem isEqual_eq_true_iff (o1 o2 : Option Report) :
    isEqual o1 o2 = true ↔ o1 = o2 := by
  unfold isEqual
  constructor
  · intro h
    exact jsonOptChars_inj (eq_of_beq h)
  · intro h
    subst h
    exact beq_self_eq_true _

/-! ### `generateDetailedActivityReport` -/

/-- Lexicographic order on character lists, as JS compares strings with `<`
and `>` (first differing unit decides; a proper prefix is smaller). -/
def charListLt : List Char → List Char → Bool
  | _, [] => false
  | [], _ :: _ => true
  | c :: cs, d :: ds => if c < d then true else if d < c then false else charListLt cs ds

/-- `x ≤ y` in the lexicographic order: `y` is not smaller. -/
def charListLe (x y : List Char) : Bool := !charListLt y x

/-- The lower-cased computer name (`a.computer_name.toLowerCase()`, ASCII
model), as a character list. -/
def lowerName (r : ReportRecord) : List Char :=
  r.computer_name.data.map Char.toLower

/-- The sort comparator from the source:
`(a, b) => (aL > bL) - (aL < bL)` on the lower-cased computer names, where the
boolean subtraction yields `1`, `0` or `-1`. -/
def reportCmp (a b : ReportRecord) : Int :=
  (if charListLt (lowerName b) (lowerName a) then 1 else 0) -
    (if charListLt (lowerName a) (lowerName b) then 1 else 0)

/-- `a` may precede `b` under the comparator: `reportCmp a b ≤ 0`. -/
def reportLe (a b : ReportRecord) : Bool := decide (reportCmp a b ≤ 0)

theorem charListLt_irrefl : ∀ x, charListLt x x = false := by
  intro x
  induction x with
  | nil => rfl
  | cons c cs ih =>
    unfold charListLt
    rw [if_neg (lt_irrefl c), if_neg (lt_irrefl c)]
    exact ih

theorem charListLt_asymm :
    ∀ x y, charListLt x y = true → charListLt y x = false := by
  intro x
  induction x with
  | nil =>
    intro y h
    cases y with
    | nil => exact Bool.noConfusion h
    | cons d ds => rfl
  | cons c cs ih =>
    intro y h
    cases y with
    | nil => exact Bool.noConfusion h
    | cons d ds =>
      unfold charListLt at h ⊢
      by_cases h1 : c < d
      · rw [if_neg (lt_asymm h1), if_pos h1]
      · rw [if_neg h1] at h
        by_cases h2 : d < c
        · rw [if_pos h2] at h
          exact absurd h (by decide)
        · rw [if_neg h2] at h
          rw [if_neg h2, if_neg h1]
          exact ih ds h

theorem charListLt_trans :
    ∀ x y z, charListLt x y = true → charListLt y z = true →
      charListLt x z = true := by
  intro x
  induction x with
  | nil =>
    intro y z hxy hyz
    cases z with
    | nil =>
      cases y with
      | nil => exact Bool.noConfusion hxy
      | cons d ds => exact Bool.noConfusion hyz
    | cons e es => rfl
  | cons c cs ih =>
    intro y z hxy hyz
    cases y with
    | nil => exact Bool.noConfusion hxy
    | cons d ds =>
      cases z with
      | nil => exact Bool.noConfusion hyz
      | cons e es =>
        unfold charListLt at hxy hyz ⊢
        by_cases h1 : c < d
        · rw [if_pos h1] at hxy
          by_cases h2 : d < e
          · rw [if_pos (lt_trans h1 h2)]
          · rw [if_neg h2] at hyz
            by_cases h3 : e < d
            · rw [if_pos h3] at hyz
              exact absurd hyz (by decide)
            · have hde : d = e := le_antisymm (not_lt.mp h3) (not_lt.mp h2)
              rw [← hde, if_pos h1]
        · rw [if_neg h1] at hxy
          by_cases h1b : d < c
          · rw [if_pos h1b] at hxy
            exact absurd hxy (by decide)
          · rw [if_neg h1b] at hxy
            have hcd : c = d := le_antisymm (not_lt.mp h1b) (not_lt.mp h1)
            subst hcd
            by_cases h2 : c < e
            · rw [if_pos h2] at hyz ⊢
            · rw [if_neg h2] at hyz ⊢
              by_cases h3 : e < c
              · rw [if_pos h3] at hyz
                exact absurd hyz (by decide)
              · rw [if_neg h3] at hyz ⊢
                exact ih ds es hxy hyz

theorem charListLt_connex :
    ∀ x y, charListLt x y = false → charListLt y x = false → x = y := by
  intro x
  induction x with
  | nil =>
    intro y h1 _
    cases y with
    | nil => rfl
    | cons d ds => exact Bool.noConfusion h1
  | cons c cs ih =>
    intro y h1 h2
    cases y with
    | nil => exact Bool.noConfusion h2
    | cons d ds =>
      unfold charListLt at h1 h2
      by_cases hcd : c < d
      · rw [if_pos hcd] at h1
        exact absurd h1 (by decide)
      · rw [if_neg hcd] at h1
        by_cases hdc : d < c
        · rw [if_pos hdc] at h2
          exact absurd h2 (by decide)
        · rw [if_neg hdc] at h1
          rw [if_neg hdc, if_neg hcd] at h2
          have hc : c = d := le_antisymm (not_lt.mp hdc) (not_lt.mp hcd)
          rw [hc, ih ds h1 h2]

theorem reportLe_iff (a b : ReportRecord) :
    reportLe a b = true ↔ charListLt (lowerName b) (lowerName a) = false := by
  unfold reportLe reportCmp
  cases hba : charListLt (lowerName b) (lowerName a) with
  | false =>
    cases hab : charListLt (lowerName a) (lowerName b) with
    | false => simp
    | true => simp
  | true =>
    have hab : charListLt (lowerName a) (lowerName b) = false :=
      charListLt_asymm _ _ hba
    rw [hab]
    simp

theorem reportLe_trans :
    ∀ a b c : ReportRecord, reportLe a b → reportLe b c → reportLe a c := by
  intro a b c hab hbc
  rw [reportLe_iff] at hab hbc ⊢
  by_cases h1 : charListLt (lowerName a) (lowerName b) = true
  · cases hca : charListLt (lowerName c) (lowerName a) with
    | false => rfl
    | true => exact absurd (charListLt_trans _ _ _ hca h1) (by rw [hbc]; decide)
  · have heq : lowerName a = lowerName b :=
      charListLt_connex _ _ (Bool.not_eq_true _ ▸ h1) hab
    rw [heq]
    exact hbc

theorem reportLe_total : ∀ a b : ReportRecord, reportLe a b || reportLe b a := by
  intro a b
  cases hba : charListLt (lowerName b) (lowerName a) with
  | false =>
    rw [(reportLe_iff a b).mpr hba]
    rfl
  | true =>
    rw [(reportLe_iff b a).mpr (charListLt_asymm _ _ hba)]
    simp

/-- Insertion of a record into an already sorted list, placing `x` before the
first element it compares `≤` to: the stable insertion step. -/
def insertLe (x : ReportRecord) : List ReportRecord → List ReportRecord
  | [] => [x]
  | y :: ys => if reportLe x y then x :: y :: ys else y :: insertLe x ys

/-- `report.sort(comparator)` — ECMAScript `Array.prototype.sort` is required
to be a stable sort consistent with the comparator; any such sort is
extensionally the stable insertion sort on the comparator-induced order. -/
def sortReport : List ReportRecord → List ReportRecord
  | [] => []
  | x :: xs => insertLe x (sortReport xs)

theorem mem_insertLe (x : ReportRecord) :
    ∀ (l : List ReportRecord) (a : ReportRecord),
      a ∈ insertLe x l ↔ a = x ∨ a ∈ l := by
  intro l
  induction l with
  | nil => intro a; simp [insertLe]
  | cons y ys ih =>
    intro a
    unfold insertLe
    by_cases hc : reportLe x y
    · rw [if_pos hc]
      simp [or_comm, or_assoc, or_left_comm]
    · rw [if_neg hc]
      simp [ih, or_comm, or_assoc, or_left_comm]

theorem insertLe_perm (x : ReportRecord) :
    ∀ l : List ReportRecord, List.Perm (insertLe x l) (x :: l) := by
  intro l
  induction l with
  | nil => exact List.Perm.refl _
  | cons y ys ih =>
    unfold insertLe
    by_cases hc : reportLe x y
    · rw [if_pos hc]
    · rw [if_neg hc]
      exact (List.Perm.cons y ih).trans (List.Perm.swap x y ys)

theorem insertLe_pairwise (x : ReportRecord) :
    ∀ l : List ReportRecord, l.Pairwise (fun a b => reportLe a b = true) →
      (insertLe x l).Pairwise (fun a b => reportLe a b = true) := by
  intro l
  induction l with
  | nil => intro _; simp [insertLe]
  | cons y ys ih =>
    intro h
    rw [List.pairwise_cons] at h
    obtain ⟨hy, hys⟩ := h
    unfold insertLe
    by_cases hc : reportLe x y
    · rw [if_pos hc]
      rw [List.pairwise_cons]
      refine ⟨?_, List.pairwise_cons.mpr ⟨hy, hys⟩⟩
      intro a ha
      rcases List.mem_cons.mp ha with h1 | h1
      · rw [h1]; exact hc
      · exact reportLe_trans x y a hc (hy a h1)
    · rw [if_neg hc]
      rw [List.pairwise_cons]
      refine ⟨?_, ih hys⟩
      intro a ha
      rcases (mem_insertLe x ys a).mp ha with h1 | h1
      · rw [h1]
        have := reportLe_total y x
        cases hxy : reportLe x y with
        | true => exact absurd hxy hc
        | false =>
          cases hyx : reportLe y x with
          | true => rfl
          | false => rw [hxy, hyx] at this; exact absurd this (by decide)
      · exact hy a h1

/-- The records of `sortReport` are pairwise ordered (ascending,
case-insensitively) by computer name. -/
theorem sortReport_sorted (records : List ReportRecord) :
    (sortReport records).Pairwise
      (fun a b => charListLe (lowerName a) (lowerName b) = true) := by
  have h : (sortReport records).Pairwise (fun a b => reportLe a b = true) := by
    induction records with
    | nil => simp [sortReport]
    | cons x xs ih => exact insertLe_pairwise x (sortReport xs) ih
  refine h.imp (fun hab => ?_)
  rw [reportLe_iff] at hab
  unfold charListLe
  rw [hab]
  rfl

/-- `sortReport` permutes its input. -/
theorem sortReport_perm (records : List ReportRecord) :
    List.Perm (sortReport records) records := by
  induction records with
  | nil => exact List.Perm.refl _
  | cons x xs ih =>
    exact (insertLe_perm x (sortReport xs)).trans (List.Perm.cons x ih)

theorem filter_insertLe (p : ReportRecord → Bool) (x : ReportRecord) :
    ∀ l : List ReportRecord,
      (∀ y ∈ l, p y = true → p x = true → reportLe x y = true) →
      (insertLe x l).filter p =
        (if p x then x :: l.filter p else l.filter p) := by
  intro l
  induction l with
  | nil =>
    intro _
    simp only [insertLe, List.filter]
    cases hp : p x <;> simp
  | cons y ys ih =>
    intro hmut
    unfold insertLe
    by_cases hc : reportLe x y
    · rw [if_pos hc]
      cases hp : p x with
      | true => simp [List.filter, hp]
      | false => simp [List.filter, hp]
    · rw [if_neg hc]
      cases hp : p x with
      | true =>
        have hpy : p y = false := by
          cases hpy : p y with
          | false => rfl
          | true => exact absurd (hmut y (List.mem_cons_self y ys) hpy hp) hc
        have ihs := ih (fun z hz => hmut z (List.mem_cons_of_mem y hz))
        rw [hp] at ihs
        simp only [List.filter, hpy, ihs, if_true, hp]
      | false =>
        have ihs := ih (fun z hz => hmut z (List.mem_cons_of_mem y hz))
        rw [hp] at ihs
        simp only [List.filter, ihs, Bool.false_eq_true, if_false]

/-- Stability of `sortReport`: the records with any given (lower-cased) name
key appear in the output exactly in their input order. -/
theorem sortReport_filter_key (records : List ReportRecord) (key : List Char) :
    (sortReport records).filter (fun r => lowerName r == key) =
      records.filter (fun r => lowerName r == key) := by
  induction records with
  | nil => rfl
  | cons x xs ih =>
    have hmut : ∀ y ∈ sortReport xs, (lowerName y == key) = true →
        (lowerName x == key) = true → reportLe x y = true := by
      intro y _ hy hx
      rw [reportLe_iff, eq_of_beq hx, eq_of_beq hy]
      exact charListLt_irrefl key
    rw [show sortReport (x :: xs) = insertLe x (sortReport xs) from rfl,
      filter_insertLe _ x (sortReport xs) hmut]
    cases hp : lowerName x == key with
    | true => simp only [if_true, ih, List.filter, hp]
    | false => simp only [Bool.false_eq_true, if_false, ih, List.filter, hp]

/-- Records with case-insensitively equal names compare as `0` under the
source comparator. -/
theorem reportCmp_eq_zero_of_lower_eq {a b : ReportRecord}
    (h : lowerName a = lowerName b) : reportCmp a b = 0 := by
  unfold reportCmp
  rw [h, charListLt_irrefl]
  simp

/-- The record pushed for one child activity; `none` models the TypeError
thrown when `gServers[childActivity.computer_id]` is `undefined`. -/
def childRecordOf (gServers : String → Option Server) (childActivity : Activity) :
    Option ReportRecord :=
  (gServers childActivity.computer_id).map fun server =>
    { computer_name := server.hostname
      computer_id := childActivity.computer_id
      activity_id := childActivity.id
      activity_status := childActivity.activity_status }

/-- The `childActivities.forEach(...)` push loop building the report records;
a failed server lookup anywhere aborts the run. -/
def childRecords (gServers : String → Option Server) :
    List Activity → Option (List ReportRecord)
  | [] => some []
  | childActivity :: rest =>
    match childRecordOf gServers childActivity, childRecords gServers rest with
    | some record, some records => some (record :: records)
    | _, _ => none

/-- The summary record appended for the parent activity. -/
def summaryRecordOf (parentActivity : Activity) : ReportRecord :=
  { computer_name := gSummaryRecord
    computer_id := "-"
    activity_id := parentActivity.id
    activity_status := parentActivity.activity_status }

/-- `generateDetailedActivityReport`, shallowly embedded.  `childActivities`
is the parsed result of the `get-activities --query parent-id:…` call and
`parentActivities` the parsed result of `get-activities --query id:…`.
The source takes `parentActivity[0]` without checking the length: an empty
result crashes (reading `.id` of `undefined`, modelled `none`), while extra
records are silently ignored. -/
def generateDetailedActivityReport (gServers : String → Option Server)
    (childActivities parentActivities : List Activity) : Option Report :=
  match childRecords gServers childActivities with
  | none => none
  | some records =>
    match parentActivities.head? with
    | none => none
    | some parentActivity =>
      some (sortReport records ++ [summaryRecordOf parentActivity])

/-- `convertDetailedActivityReportToText` from `src/cli.js`: the
string-building `for` loop. -/
def convertDetailedActivityReportToText (activityReport : Report) : String :=
  activityReport.foldl
    (fun report record =>
      report ++ (record.computer_name ++ ": " ++ record.activity_status ++ "\n"))
    ""

/-! ### The status polling loop of `main` -/

/-- The `do … while` guard from `main`:
`status !== 'canceled' && status !== 'failed' && status !== 'succeeded'`. -/
def continuePolling (status : String) : Bool :=
  status != "canceled" && status != "failed" && status != "succeeded"

/-- The loop-local state of `main`'s polling loop: the last known report
(`null` initially), plus observation traces (reports printed so far, number of
`sleep 15` calls, number of report fetches). -/
structure LoopState where
  oldActivityReport : Option Report
  emitted : List Report
  sleeps : Nat
  ticks : Nat
deriving DecidableEq, Repr

/-- `oldActivityReport = null` before the loop, nothing yet printed. -/
def initLoopState : LoopState :=
  { oldActivityReport := none, emitted := [], sleeps := 0, ticks := 0 }

/-- Result of running the polling loop under a fuel bound: the loop left on
the terminal condition, the fuel ran out with the loop still going, or the
iteration crashed (empty report indexed at `length - 1`). -/
inductive PollResult where
  | finished (s : LoopState) (finalRecord : ReportRecord)
  | fuelOut (s : LoopState)
  | crashed (s : LoopState)
deriving DecidableEq, Repr

/-- One execution of the loop body: `execSync('sleep 15')`, fetch the fresh
report, print it when `!isEqual(oldActivityReport, newActivityReport)`,
then `oldActivityReport = newActivityReport` unconditionally. -/
def stepState (fetchReport : Nat → Report) (s : LoopState) : LoopState :=
  { oldActivityReport := some (fetchReport s.ticks)
    emitted :=
      if isEqual s.oldActivityReport (some (fetchReport s.ticks)) then s.emitted
      else s.emitted ++ [fetchReport s.ticks]
    sleeps := s.sleeps + 1
    ticks := s.ticks + 1 }

/-- The `do { … } while (…)` loop of `main`.  `fetchReport` abstracts
`generateDetailedActivityReport(parentActivity.id)` at each tick.  After the
body, the guard reads
`newActivityReport[newActivityReport.length - 1].activity_status` (the last
record); on an empty report that is `undefined[…]`, modelled as `crashed`. -/
def pollLoop (fetchReport : Nat → Report) : Nat → LoopState → PollResult
  | 0, s => .fuelOut s
  | fuel + 1, s =>
    match (fetchReport s.ticks).getLast? with
    | none => .crashed (stepState fetchReport s)
    | some record =>
      if continuePolling record.activity_status then
        pollLoop fetchReport fuel (stepState fetchReport s)
      else .finished (stepState fetchReport s) record

theorem pollLoop_nonterminal_run (fetchReport : Nat → Report) :
    ∀ (fuel : Nat) (s : LoopState),
      (∀ k, s.ticks ≤ k → k < s.ticks + fuel →
        ∃ rec, (fetchReport k).getLast? = some rec ∧
          continuePolling rec.activity_status = true) →
      ∃ s2, pollLoop fetchReport fuel s = .fuelOut s2 ∧ s2.ticks = s.ticks + fuel := by
  intro fuel
  induction fuel with
  | zero =>
    intro s _
    exact ⟨s, rfl, by omega⟩
  | succ fuel ih =>
    intro s h
    obtain ⟨rec, hrec, hcont⟩ := h s.ticks (le_refl _) (by omega)
    have hstep : (stepState fetchReport s).ticks = s.ticks + 1 := rfl
    have h2 : ∀ k, (stepState fetchReport s).ticks ≤ k →
        k < (stepState fetchReport s).ticks + fuel →
        ∃ r2, (fetchReport k).getLast? = some r2 ∧
          continuePolling r2.activity_status = true := by
      intro k hk1 hk2
      rw [hstep] at hk1 hk2
      exact h k (by omega) (by omega)
    obtain ⟨s2, hs2, ht⟩ := ih (stepState fetchReport s) h2
    refine ⟨s2, ?_, by rw [ht, hstep]; omega⟩
    simp only [pollLoop, hrec]
    rw [if_pos hcont]
    exact hs2

theorem pollLoop_first_terminal (fetchReport : Nat → Report) :
    ∀ (n : Nat) (fuel : Nat) (s : LoopState) (rec : ReportRecord),
      n < fuel →
      (∀ k, s.ticks ≤ k → k < s.ticks + n →
        ∃ r2, (fetchReport k).getLast? = some r2 ∧
          continuePolling r2.activity_status = true) →
      (fetchReport (s.ticks + n)).getLast? = some rec →
      continuePolling rec.activity_status = false →
      ∃ s2, pollLoop fetchReport fuel s = .finished s2 rec ∧
        s2.ticks = s.ticks + n + 1 := by
  intro n
  induction n with
  | zero =>
    intro fuel s rec hfuel hpre hlast hterm
    match fuel, hfuel with
    | fuel + 1, _ =>
      rw [Nat.add_zero] at hlast
      refine ⟨stepState fetchReport s, ?_, rfl⟩
      simp only [pollLoop, hlast, hterm, Bool.false_eq_true, if_false]
  | succ n ih =>
    intro fuel s rec hfuel hpre hlast hterm
    match fuel, hfuel with
    | fuel + 1, hfuel =>
      obtain ⟨r0, hr0, hc0⟩ := hpre s.ticks (le_refl _) (by omega)
      have hstep : (stepState fetchReport s).ticks = s.ticks + 1 := rfl
      have hpre2 : ∀ k, (stepState fetchReport s).ticks ≤ k →
          k < (stepState fetchReport s).ticks + n →
          ∃ r2, (fetchReport k).getLast? = some r2 ∧
            continuePolling r2.activity_status = true := by
        intro k hk1 hk2
        rw [hstep] at hk1 hk2
        exact hpre k (by omega) (by omega)
      have hlast2 : (fetchReport ((stepState fetchReport s).ticks + n)).getLast? =
          some rec := by
        rw [hstep, show s.ticks + 1 + n = s.ticks + (n + 1) by omega]
        exact hlast
      obtain ⟨s2, hs2, ht⟩ :=
        ih fuel (stepState fetchReport s) rec (by omega) hpre2 hlast2 hterm
      refine ⟨s2, ?_, by rw [ht, hstep]; omega⟩
      simp only [pollLoop, hr0]
      rw [if_pos hc0]
      exact hs2

theorem pollLoop_finished_not_continue (fetchReport : Nat → Report) :
    ∀ (fuel : Nat) (s s2 : LoopState) (rec : ReportRecord),
      pollLoop fetchReport fuel s = .finished s2 rec →
      continuePolling rec.activity_status = false := by
  intro fuel
  induction fuel with
  | zero =>
    intro s s2 rec h
    exact absurd h (by simp [pollLoop])
  | succ fuel ih =>
    intro s s2 rec h
    simp only [pollLoop] at h
    cases hL : (fetchReport s.ticks).getLast? with
    | none =>
      rw [hL] at h
      simp at h
    | some r0 =>
      rw [hL] at h
      simp only at h
      by_cases hc : continuePolling r0.activity_status
      · rw [if_pos hc] at h
        exact ih _ _ _ h
      · rw [if_neg hc] at h
        cases h
        simpa using hc

/-- The reports the loop is expected to have printed after `n` iterations:
the report of tick `k` appears exactly when `k = 0` (the initial comparison is
against `null`) or it differs structurally from the report of tick `k - 1`. -/
def expectedEmissions (fetchReport : Nat → Report) : Nat → List Report
  | 0 => []
  | n + 1 =>
    expectedEmissions fetchReport n ++
      (if n = 0 then [fetchReport 0]
       else if fetchReport n = fetchReport (n - 1) then [] else [fetchReport n])

/-- Invariant tying a loop state to the fetch history: the printed reports are
exactly `expectedEmissions`, the last known report is the last fetched one
(`null` before the first tick), and one sleep has happened per tick. -/
def LoopInv (fetchReport : Nat → Report) (s : LoopState) : Prop :=
  s.emitted = expectedEmissions fetchReport s.ticks ∧
  s.oldActivityReport =
    (if s.ticks = 0 then none else some (fetchReport (s.ticks - 1))) ∧
  s.sleeps = s.ticks

theorem isEqual_none_some (r : Report) : isEqual none (some r) = false := by
  cases hb : isEqual none (some r) with
  | false => rfl
  | true => exact absurd ((isEqual_eq_true_iff _ _).mp hb) (by simp)

theorem initLoopState_inv (fetchReport : Nat → Report) :
    LoopInv fetchReport initLoopState :=
  ⟨rfl, rfl, rfl⟩

theorem stepState_inv (fetchReport : Nat → Report) (s : LoopState)
    (h : LoopInv fetchReport s) : LoopInv fetchReport (stepState fetchReport s) := by
  obtain ⟨he, ho, hs⟩ := h
  refine ⟨?_, ?_, ?_⟩
  · show (if isEqual s.oldActivityReport (some (fetchReport s.ticks)) then s.emitted
      else s.emitted ++ [fetchReport s.ticks]) =
      expectedEmissions fetchReport (s.ticks + 1)
    rcases Nat.eq_zero_or_pos s.ticks with h0 | hpos
    · have holdn : s.oldActivityReport = none := by rw [ho, h0]; rfl
      rw [holdn, isEqual_none_some, h0, he, h0]
      simp [expectedEmissions]
    · have hts : s.ticks ≠ 0 := by omega
      have hold : s.oldActivityReport = some (fetchReport (s.ticks - 1)) := by
        rw [ho, if_neg hts]
      rw [hold, he]
      by_cases heq : fetchReport s.ticks = fetchReport (s.ticks - 1)
      · have hiso : isEqual (some (fetchReport (s.ticks - 1)))
            (some (fetchReport s.ticks)) = true :=
          (isEqual_eq_true_iff _ _).mpr (by rw [heq])
        rw [hiso]
        simp only [if_true, expectedEmissions, if_neg hts, if_pos heq,
          List.append_nil]
      · have hiso : isEqual (some (fetchReport (s.ticks - 1)))
            (some (fetchReport s.ticks)) = false := by
          cases hb : isEqual (some (fetchReport (s.ticks - 1)))
              (some (fetchReport s.ticks)) with
          | false => rfl
          | true =>
            have h2 := (isEqual_eq_true_iff _ _).mp hb
            simp only [Option.some.injEq] at h2
            exact absurd h2.symm heq
        rw [hiso]
        simp only [Bool.false_eq_true, if_false, expectedEmissions, if_neg hts,
          if_neg heq]
  · show some (fetchReport s.ticks) =
      (if s.ticks + 1 = 0 then none else some (fetchReport (s.ticks + 1 - 1)))
    simp
  · show s.sleeps + 1 = s.ticks + 1
    omega

theorem pollLoop_inv (fetchReport : Nat → Report) :
    ∀ (fuel : Nat) (s : LoopState), LoopInv fetchReport s →
      (∀ s2 rec, pollLoop fetchReport fuel s = .finished s2 rec →
        LoopInv fetchReport s2 ∧ s.ticks < s2.ticks) ∧
      (∀ s2, pollLoop fetchReport fuel s = .fuelOut s2 →
        LoopInv fetchReport s2 ∧ s.ticks ≤ s2.ticks) ∧
      (∀ s2, pollLoop fetchReport fuel s = .crashed s2 →
        LoopInv fetchReport s2 ∧ s.ticks < s2.ticks) := by
  intro fuel
  induction fuel with
  | zero =>
    intro s hinv
    refine ⟨?_, ?_, ?_⟩
    · intro s2 rec h
      exact absurd h (by simp [pollLoop])
    · intro s2 h
      simp only [pollLoop, PollResult.fuelOut.injEq] at h
      rw [← h]
      exact ⟨hinv, le_refl _⟩
    · intro s2 h
      exact absurd h (by simp [pollLoop])
  | succ fuel ih =>
    intro s hinv
    have hinv2 := stepState_inv fetchReport s hinv
    have hstep : (stepState fetchReport s).ticks = s.ticks + 1 := rfl
    refine ⟨?_, ?_, ?_⟩
    · intro s2 rec h
      simp only [pollLoop] at h
      cases hL : (fetchReport s.ticks).getLast? with
      | none =>
        rw [hL] at h
        simp at h
      | some r0 =>
        rw [hL] at h
        simp only at h
        by_cases hc : continuePolling r0.activity_status
        · rw [if_pos hc] at h
          have := ((ih _ hinv2).1 _ _ h)
          exact ⟨this.1, by omega⟩
        · rw [if_neg hc] at h
          cases h
          exact ⟨hinv2, by omega⟩
    · intro s2 h
      simp only [pollLoop] at h
      cases hL : (fetchReport s.ticks).getLast? with
      | none =>
        rw [hL] at h
        simp at h
      | some r0 =>
        rw [hL] at h
        simp only at h
        by_cases hc : continuePolling r0.activity_status
        · rw [if_pos hc] at h
          have := ((ih _ hinv2).2.1 _ h)
          exact ⟨this.1, by omega⟩
        · rw [if_neg hc] at h
          simp at h
    · intro s2 h
      simp only [pollLoop] at h
      cases hL : (fetchReport s.ticks).getLast? with
      | none =>
        rw [hL] at h
        simp only [PollResult.crashed.injEq] at h
        rw [← h]
        exact ⟨hinv2, by omega⟩
      | some r0 =>
        rw [hL] at h
        simp only at h
        by_cases hc : continuePolling r0.activity_status
        · rw [if_pos hc] at h
          have := ((ih _ hinv2).2.2 _ h)
          exact ⟨this.1, by omega⟩
        · rw [if_neg hc] at h
          simp at h

theorem expectedEmissions_head (fetchReport : Nat → Report) :
    ∀ n, 1 ≤ n → (expectedEmissions fetchReport n).head? = some (fetchReport 0) := by
  intro n
  induction n with
  | zero => omega
  | succ n ih =>
    intro _
    rcases Nat.eq_zero_or_pos n with h0 | hpos
    · rw [h0]
      rfl
    · rw [expectedEmissions, List.head?_append, ih hpos]
      rfl

/-! ### Argument resolution and the rest of `main` -/

/-- The value of `program.script` after commander applies `parseInt`:
absent flag (`undefined`), unparsable value (`NaN`), or a number. -/
inductive JsScriptVal where
  | undef
  | nan
  | num (n : Int)
deriving DecidableEq, Repr

/-- JS truthiness of `program.script`: `undefined`, `NaN` and `0` are falsy. -/
def truthyScript : JsScriptVal → Bool
  | .undef => false
  | .nan => false
  | .num n => n != 0

/-- JS truthiness of `program.tag`: `undefined` and the empty string are
falsy. -/
def truthyTag : Option String → Bool
  | none => false
  | some t => t != ""

/-- The numeric value of a truthy script flag. -/
def scriptNumber : JsScriptVal → Int
  | .num n => n
  | _ => 0

/-- The globals set by a successful `processCommandLineArgs` call. -/
structure Config where
  tag : String
  script : Int
  dev : Bool
deriving DecidableEq, Repr

/-- `processCommandLineArgs`: when `!program.script || !program.tag`, the
source calls `program.help()`, which prints the usage text and exits the
process before anything else runs — modelled by `none`.  Otherwise the
globals `gLandscapeActivityGroup` / `gLandscapeScript` are set and the
Landscape command wrapper is selected from `--dev`. -/
def processCommandLineArgs (script : JsScriptVal) (tag : Option String)
    (dev : Bool) : Option Config :=
  if !truthyScript script || !truthyTag tag then none
  else some { tag := tag.getD "", script := scriptNumber script, dev := dev }

/-- Modelled from the spec: the process exit code of the `program.help()` path.
The exit itself happens inside the commander library, which is not part of
this repository; the spec says "Missing required flags → print usage/help and
exit non-zero." -/
def helpExitCode : Nat := 1

/-- A remote interaction made by `main` (Landscape API calls and the Slack
webhook), in program order. -/
inductive RemoteCall where
  | getComputers (tag : String)
  | executeScript (tag : String) (script : Int)
  | getChildActivities (parentId : String)
  | getActivities (id : String)
  | slack (text : String)
deriving DecidableEq, Repr

/-- Bunyan log levels used by the script. -/
inductive LogLevel where
  | info
  | error
deriving DecidableEq, Repr

/-- How a `main` run ends. -/
inductive MainOutcome where
  | helpExit (exitCode : Nat)
  | completed (finalStatus : String)
  | outOfFuel
  | crashed
deriving DecidableEq, Repr

/-- Observable result of a `main` run. -/
structure MainResult where
  remoteCalls : List RemoteCall
  finalLogs : List (LogLevel × String)
  outcome : MainOutcome
deriving DecidableEq, Repr

/-- The text of the deployment-start Slack notification. -/
def startNotificationText (script : Int) (tag : String) : String :=
  "I am deploying software using Landscape script \x27" ++ toString script ++
  "\x27 for the group of servers called \x27" ++ tag ++ "\x27..."

/-- The text of the deployment-end Slack notification. -/
def endNotificationText (script : Int) (tag : String) : String :=
  "I have finished deploying software using Landscape script \x27" ++
  toString script ++ "\x27 for the group of servers called \x27" ++ tag ++
  "\x27.  Here are the details for each server:"

/-- The final log message built after the loop. -/
def completionMessage (status : String) : String :=
  "Deployment completed with status \x27" ++ status ++ "\x27."

/-- The remote calls of `n` poll iterations: each
`generateDetailedActivityReport` call queries the child activities and then
the parent activity. -/
def pollCalls (parentActivityId : String) (n : Nat) : List RemoteCall :=
  (List.replicate n
    [RemoteCall.getChildActivities parentActivityId,
     RemoteCall.getActivities parentActivityId]).flatten

/-- The final `if/else` of `main`: one `gLog.info` call when the final status
is `succeeded` or `canceled`, one `gLog.error` call otherwise. -/
def finalLogsFor (status : String) : List (LogLevel × String) :=
  if status == "succeeded" || status == "canceled" then
    [(LogLevel.info, completionMessage status)]
  else
    [(LogLevel.error, completionMessage status)]

/-- `main` from `src/cli.js`, shallowly embedded over an abstract remote
world: `parentActivityId` abstracts the id of the parent activity returned by
`executeScript`, and `fetchReport` the report generated on each poll tick.
Records the remote calls made (in program order), the final completion log
entries, and how the run ended.  (The per-tick `gLog.info` progress messages
are not modelled.) -/
def mainRun (script : JsScriptVal) (tag : Option String) (dev : Bool)
    (parentActivityId : String) (fetchReport : Nat → Report) (fuel : Nat) :
    MainResult :=
  match processCommandLineArgs script tag dev with
  | none => { remoteCalls := [], finalLogs := [], outcome := .helpExit helpExitCode }
  | some config =>
    match pollLoop fetchReport fuel initLoopState with
    | .fuelOut s =>
      { remoteCalls := [RemoteCall.getComputers config.tag,
          RemoteCall.slack (startNotificationText config.script config.tag),
          RemoteCall.executeScript config.tag config.script] ++
          pollCalls parentActivityId s.ticks
        finalLogs := []
        outcome := .outOfFuel }
    | .crashed s =>
      { remoteCalls := [RemoteCall.getComputers config.tag,
          RemoteCall.slack (startNotificationText config.script config.tag),
          RemoteCall.executeScript config.tag config.script] ++
          pollCalls parentActivityId s.ticks
        finalLogs := []
        outcome := .crashed }
    | .finished s record =>
      { remoteCalls := [RemoteCall.getComputers config.tag,
          RemoteCall.slack (startNotificationText config.script config.tag),
          RemoteCall.executeScript config.tag config.script] ++
          pollCalls parentActivityId s.ticks ++
          [RemoteCall.slack (endNotificationText config.script config.tag),
           RemoteCall.slack (convertDetailedActivityReportToText
             (s.oldActivityReport.getD []))]
        finalLogs := finalLogsFor record.activity_status
        outcome := .completed record.activity_status }

theorem pollLoop_fuelOut_ticks (fetchReport : Nat → Report) :
    ∀ (fuel : Nat) (s s2 : LoopState),
      pollLoop fetchReport fuel s = PollResult.fuelOut s2 →
      s2.ticks = s.ticks + fuel := by
  intro fuel
  induction fuel with
  | zero =>
    intro s s2 h
    simp only [pollLoop, PollResult.fuelOut.injEq] at h
    rw [← h]
    omega
  | succ fuel ih =>
    intro s s2 h
    simp only [pollLoop] at h
    cases hL : (fetchReport s.ticks).getLast? with
    | none =>
      rw [hL] at h
      simp at h
    | some r0 =>
      rw [hL] at h
      simp only at h
      by_cases hc : continuePolling r0.activity_status
      · rw [if_pos hc] at h
        have := ih _ _ h
        have hstep : (stepState fetchReport s).ticks = s.ticks + 1 := rfl
        omega
      · rw [if_neg hc] at h
        simp at h

theorem continuePolling_eq_false_iff (status : String) :
    continuePolling status = false ↔
      status = "canceled" ∨ status = "failed" ∨ status = "succeeded" := by
  unfold continuePolling
  rw [← Bool.not_eq_true]
  simp only [Bool.and_eq_true, bne_iff_ne, ne_eq]
  tauto

theorem mainRun_completed_inversion (script : JsScriptVal) (tag : Option String)
    (dev : Bool) (parentActivityId : String) (fetchReport : Nat → Report)
    (fuel : Nat) (st : String)
    (h : (mainRun script tag dev parentActivityId fetchReport fuel).outcome =
      MainOutcome.completed st) :
    ∃ s rec, pollLoop fetchReport fuel initLoopState = PollResult.finished s rec ∧
      rec.activity_status = st ∧
      (mainRun script tag dev parentActivityId fetchReport fuel).finalLogs =
        finalLogsFor st := by
  cases hp : processCommandLineArgs script tag dev with
  | none =>
    unfold mainRun at h
    rw [hp] at h
    exact absurd h (by simp)
  | some config =>
    cases hl : pollLoop fetchReport fuel initLoopState with
    | fuelOut s =>
      unfold mainRun at h
      rw [hp, hl] at h
      exact absurd h (by simp)
    | crashed s =>
      unfold mainRun at h
      rw [hp, hl] at h
      exact absurd h (by simp)
    | finished s rec =>
      unfold mainRun at h ⊢
      rw [hp, hl] at h ⊢
      simp only at h ⊢
      simp only [MainOutcome.completed.injEq] at h
      exact ⟨s, rec, rfl, h, by rw [h]⟩

/-! ### Observation helpers on poll results -/

/-- Did the run exhaust its fuel with the loop still going? -/
def isFuelOut : PollResult → Bool
  | .fuelOut _ => true
  | _ => false

/-- The record the loop finished on, when it finished. -/
def finishedRecord : PollResult → Option ReportRecord
  | .finished _ rec => some rec
  | _ => none

/-- Number of loop iterations performed in the run. -/
def resultTicks : PollResult → Nat
  | .finished s _ => s.ticks
  | .fuelOut s => s.ticks
  | .crashed s => s.ticks

/-! ### The claims -/

/-- C1: the status polling loop keeps looping while the last (summary)
record's `activity_status` is any value outside
`{succeeded, failed, canceled}` — running down all its fuel without
finishing — and terminates exactly on the first tick whose status is one of
those three, finishing with that tick's record. -/
theorem c1_polling_continues_until_first_terminal
    (fetchReport : Nat → Report) (fuel : Nat) :
    ((∀ k, k < fuel → ∃ rec, (fetchReport k).getLast? = some rec ∧
        continuePolling rec.activity_status = true) →
      isFuelOut (pollLoop fetchReport fuel initLoopState) = true ∧
      resultTicks (pollLoop fetchReport fuel initLoopState) = fuel) ∧
    (∀ n, n < fuel →
      (∀ k, k < n → ∃ rec, (fetchReport k).getLast? = some rec ∧
        continuePolling rec.activity_status = true) →
      ∀ rec, (fetchReport n).getLast? = some rec →
        continuePolling rec.activity_status = false →
        finishedRecord (pollLoop fetchReport fuel initLoopState) = some rec ∧
        resultTicks (pollLoop fetchReport fuel initLoopState) = n + 1) := by
  constructor
  · intro h
    obtain ⟨s2, h1, h2⟩ := pollLoop_nonterminal_run fetchReport fuel initLoopState
      (fun k _ hk2 => h k (by simpa [initLoopState] using hk2))
    simp only [initLoopState] at h2
    rw [h1]
    exact ⟨rfl, by simp only [resultTicks]; omega⟩
  · intro n hn hpre rec hlast hterm
    obtain ⟨s2, h1, h2⟩ := pollLoop_first_terminal fetchReport n fuel initLoopState
      rec hn (fun k _ hk2 => hpre k (by simpa [initLoopState] using hk2))
      (by simpa [initLoopState] using hlast) hterm
    simp only [initLoopState] at h2
    rw [h1]
    exact ⟨rfl, by simp only [resultTicks]; omega⟩

/-- A fetch stream whose tick 0 is non-terminal and all later ticks
terminal. -/
def c1Fetch : Nat → Report := fun k =>
  [{ computer_name := "x", computer_id := "c", activity_id := "a", activity_status := if k = 0 then "queued" else "succeeded" }]

/-- Witness for C1: under `c1Fetch` the loop finishes after exactly two
iterations, on the tick-1 record. -/
theorem c1_witness_terminates_at_second_tick :
    finishedRecord (pollLoop c1Fetch 3 initLoopState) =
      some { computer_name := "x", computer_id := "c", activity_id := "a", activity_status := "succeeded" } ∧
    resultTicks (pollLoop c1Fetch 3 initLoopState) = 2 :=
  (c1_polling_continues_until_first_terminal c1Fetch 3).2 1 (by decide)
    (fun k hk => by
      have hk0 : k = 0 := by omega
      subst hk0
      exact ⟨{ computer_name := "x", computer_id := "c", activity_id := "a", activity_status := "queued" }, by decide, by decide⟩)
    { computer_name := "x", computer_id := "c", activity_id := "a", activity_status := "succeeded" } (by decide) (by decide)

/-- C3: `isEqual` is exactly structural equality of the two (possibly `null`)
reports: identical field values give `true` regardless of object identity
(our embedding has value semantics), and any difference in any field gives
`false`. -/
theorem c3_isEqual_iff_structural_eq (report1 report2 : Option Report) :
    isEqual report1 report2 = true ↔ report1 = report2 :=
  isEqual_eq_true_iff report1 report2

/-- C4: over any polling run, a tick's report is printed exactly when it
differs structurally from the previous tick's report (the first tick always
prints, its comparison being against `null`), and the last known report is
replaced unconditionally: after every tick it equals the most recently
fetched report, even when the two were equal and nothing was printed. -/
theorem c4_emit_iff_changed_replace_unconditionally
    (fetchReport : Nat → Report) (fuel : Nat) :
    (∀ s rec, pollLoop fetchReport fuel initLoopState = PollResult.finished s rec →
      s.emitted = expectedEmissions fetchReport s.ticks ∧
      1 ≤ s.ticks ∧ s.oldActivityReport = some (fetchReport (s.ticks - 1))) ∧
    (∀ s, pollLoop fetchReport fuel initLoopState = PollResult.fuelOut s →
      s.emitted = expectedEmissions fetchReport s.ticks ∧
      s.oldActivityReport =
        (if s.ticks = 0 then none else some (fetchReport (s.ticks - 1)))) := by
  have hinv := pollLoop_inv fetchReport fuel initLoopState
    (initLoopState_inv fetchReport)
  constructor
  · intro s rec h
    obtain ⟨⟨he, ho, _⟩, ht⟩ := hinv.1 s rec h
    have h1 : 1 ≤ s.ticks := by simp only [initLoopState] at ht; omega
    refine ⟨he, h1, ?_⟩
    rw [ho, if_neg (by omega)]
  · intro s h
    obtain ⟨⟨he, ho, _⟩, _⟩ := hinv.2.1 s h
    exact ⟨he, ho⟩

/-- A fetch stream that is terminal from the first tick. -/
def c4Fetch : Nat → Report := fun _ =>
  [{ computer_name := "x", computer_id := "c", activity_id := "a", activity_status := "succeeded" }]

/-- The loop state after the single iteration of a `c4Fetch` run. -/
def c4FinalState : LoopState :=
  { oldActivityReport := some [{ computer_name := "x", computer_id := "c", activity_id := "a", activity_status := "succeeded" }]
    emitted := [[{ computer_name := "x", computer_id := "c", activity_id := "a", activity_status := "succeeded" }]]
    sleeps := 1
    ticks := 1 }

/-- Witness for C4 on a concrete one-tick run. -/
theorem c4_witness_one_tick_run :
    c4FinalState.emitted = expectedEmissions c4Fetch c4FinalState.ticks ∧
    1 ≤ c4FinalState.ticks ∧
    c4FinalState.oldActivityReport = some (c4Fetch (c4FinalState.ticks - 1)) :=
  (c4_emit_iff_changed_replace_unconditionally c4Fetch 1).1 c4FinalState
    { computer_name := "x", computer_id := "c", activity_id := "a", activity_status := "succeeded" } (by decide)

/-- C10: every run that reaches the polling stage executes the loop body at
least once — one `sleep 15` and one report fetch happen, and the first report
is always printed (its comparison is against `null`) — before the terminal
condition is first evaluated; in particular, when already the first report is
terminal the loop still performs exactly one iteration. -/
theorem c10_loop_body_runs_at_least_once (fetchReport : Nat → Report)
    (fuel : Nat) (hfuel : 1 ≤ fuel) :
    (∀ s rec, pollLoop fetchReport fuel initLoopState = PollResult.finished s rec →
      1 ≤ s.sleeps ∧ 1 ≤ s.ticks ∧ s.emitted.head? = some (fetchReport 0)) ∧
    (∀ s, pollLoop fetchReport fuel initLoopState = PollResult.fuelOut s →
      1 ≤ s.sleeps ∧ 1 ≤ s.ticks ∧ s.emitted.head? = some (fetchReport 0)) ∧
    (∀ s, pollLoop fetchReport fuel initLoopState = PollResult.crashed s →
      1 ≤ s.sleeps ∧ 1 ≤ s.ticks) ∧
    (∀ rec, (fetchReport 0).getLast? = some rec →
      continuePolling rec.activity_status = false →
      finishedRecord (pollLoop fetchReport fuel initLoopState) = some rec ∧
      resultTicks (pollLoop fetchReport fuel initLoopState) = 1) := by
  have hinv := pollLoop_inv fetchReport fuel initLoopState
    (initLoopState_inv fetchReport)
  refine ⟨?_, ?_, ?_, ?_⟩
  · intro s rec h
    obtain ⟨⟨he, _, hsl⟩, ht⟩ := hinv.1 s rec h
    have h1 : 1 ≤ s.ticks := by simp only [initLoopState] at ht; omega
    exact ⟨by omega, h1, by rw [he]; exact expectedEmissions_head _ _ h1⟩
  · intro s h
    have ht := pollLoop_fuelOut_ticks fetchReport fuel initLoopState s h
    obtain ⟨⟨he, _, hsl⟩, _⟩ := hinv.2.1 s h
    have h1 : 1 ≤ s.ticks := by simp only [initLoopState] at ht; omega
    exact ⟨by omega, h1, by rw [he]; exact expectedEmissions_head _ _ h1⟩
  · intro s h
    obtain ⟨⟨_, _, hsl⟩, ht⟩ := hinv.2.2 s h
    have h1 : 1 ≤ s.ticks := by simp only [initLoopState] at ht; omega
    exact ⟨by omega, h1⟩
  · intro rec hlast hterm
    obtain ⟨s2, h1, h2⟩ := pollLoop_first_terminal fetchReport 0 fuel initLoopState
      rec (by omega) (fun k _ hk2 => absurd hk2 (by simp [initLoopState]))
      (by simpa [initLoopState] using hlast) hterm
    simp only [initLoopState] at h2
    rw [h1]
    exact ⟨rfl, by simp only [resultTicks]; omega⟩

/-- A fetch stream that is terminal (canceled) from the first tick. -/
def c10Fetch : Nat → Report := fun _ =>
  [{ computer_name := "y", computer_id := "c", activity_id := "a", activity_status := "canceled" }]

/-- Witness for C10: an immediately-terminal run still performs one full
iteration. -/
theorem c10_witness_immediate_terminal :
    finishedRecord (pollLoop c10Fetch 5 initLoopState) =
      some { computer_name := "y", computer_id := "c", activity_id := "a", activity_status := "canceled" } ∧
    resultTicks (pollLoop c10Fetch 5 initLoopState) = 1 :=
  (c10_loop_body_runs_at_least_once c10Fetch 5 (by decide)).2.2.2
    { computer_name := "y", computer_id := "c", activity_id := "a", activity_status := "canceled" } (by decide) (by decide)

/-- C2: for every (resolvable) list of child activities and every parent
activity, the generated report has the summary record — sentinel name
`** ALL (Summary) **`, carrying the parent's status — as its last element,
and the records before it are exactly the child records sorted by
`computer_name` ascending, case-insensitively, records with case-insensitively
equal names keeping their input order (the comparator returns `0` for them). -/
theorem c2_report_sorted_with_summary_last
    (gServers : String → Option Server)
    (childActivities : List Activity) (parentActivity : Activity)
    (records : List ReportRecord) (report : Report)
    (hrecords : childRecords gServers childActivities = some records)
    (hreport : generateDetailedActivityReport gServers childActivities
      [parentActivity] = some report) :
    report.getLast? = some (summaryRecordOf parentActivity) ∧
    report.dropLast = sortReport records ∧
    List.Perm report.dropLast records ∧
    report.dropLast.Pairwise
      (fun a b => charListLe (lowerName a) (lowerName b) = true) ∧
    (∀ key : List Char,
      report.dropLast.filter (fun r => lowerName r == key) =
        records.filter (fun r => lowerName r == key)) ∧
    (∀ a b : ReportRecord, lowerName a = lowerName b → reportCmp a b = 0) := by
  have hrep : report = sortReport records ++ [summaryRecordOf parentActivity] := by
    unfold generateDetailedActivityReport at hreport
    rw [hrecords] at hreport
    simp only [List.head?] at hreport
    simp only [Option.some.injEq] at hreport
    rw [← hreport]
  rw [hrep]
  refine ⟨?_, ?_, ?_, ?_, ?_, ?_⟩
  · rw [List.getLast?_concat]
  · rw [List.dropLast_concat]
  · rw [List.dropLast_concat]
    exact sortReport_perm records
  · rw [List.dropLast_concat]
    exact sortReport_sorted records
  · intro key
    rw [List.dropLast_concat]
    exact sortReport_filter_key records key
  · intro a b hab
    exact reportCmp_eq_zero_of_lower_eq hab

/-- Concrete server map for the C2 witness. -/
def c2Servers : String → Option Server := fun id =>
  if id = "c1" then some { id := "c1", hostname := "b-host" }
  else if id = "c2" then some { id := "c2", hostname := "A-host" }
  else none

/-- Concrete child activities for the C2 witness. -/
def c2Children : List Activity :=
  [{ id := "a1", computer_id := "c1", activity_status := "queued" },
   { id := "a2", computer_id := "c2", activity_status := "succeeded" }]

/-- Concrete parent activity for the C2 witness. -/
def c2Parent : Activity :=
  { id := "p0", computer_id := "-", activity_status := "in progress" }

/-- The child records resolved from `c2Children`. -/
def c2Records : List ReportRecord :=
  [{ computer_name := "b-host", computer_id := "c1", activity_id := "a1", activity_status := "queued" },
   { computer_name := "A-host", computer_id := "c2", activity_id := "a2", activity_status := "succeeded" }]

/-- The report generated for the C2 witness inputs. -/
def c2Report : Report :=
  [{ computer_name := "A-host", computer_id := "c2", activity_id := "a2", activity_status := "succeeded" },
   { computer_name := "b-host", computer_id := "c1", activity_id := "a1", activity_status := "queued" },
   { computer_name := gSummaryRecord, computer_id := "-", activity_id := "p0", activity_status := "in progress" }]

/-- Witness for C2 on two concrete children whose hostnames sort
case-insensitively. -/
theorem c2_witness_two_children :
    c2Report.getLast? = some (summaryRecordOf c2Parent) ∧
    c2Report.dropLast = sortReport c2Records ∧
    c2Report.dropLast.filter (fun r => lowerName r == "a-host".data) =
      c2Records.filter (fun r => lowerName r == "a-host".data) := by
  have h := c2_report_sorted_with_summary_last c2Servers c2Children c2Parent
    c2Records c2Report (by decide) (by decide)
  exact ⟨h.1, h.2.1, h.2.2.2.2.1 "a-host".data⟩

/-- C5 counterexample: a parent lookup with more than one record does not
fail — the code silently produces a report (here the child list is empty and
the lookup returns two records, yet a report is generated). -/
theorem c5_counterexample_multi_match_produces_report :
    (2 : Nat) ≤ ([{ id := "p1", computer_id := "-", activity_status := "succeeded" },
      { id := "p2", computer_id := "-", activity_status := "failed" }] : List Activity).length ∧
    generateDetailedActivityReport (fun _ => none) []
      [{ id := "p1", computer_id := "-", activity_status := "succeeded" },
       { id := "p2", computer_id := "-", activity_status := "failed" }] ≠ none := by
  decide

/-- C5 amended: a parent lookup returning zero records is fatal (reading
`.id` of `undefined`; no report is produced), but a lookup returning more
than one record is not: the code silently takes `parentActivity[0]` and
produces a report from the first record. -/
theorem c5_amended_parent_lookup (gServers : String → Option Server)
    (childActivities parentActivities : List Activity)
    (records : List ReportRecord)
    (hrecords : childRecords gServers childActivities = some records) :
    (parentActivities = [] →
      generateDetailedActivityReport gServers childActivities parentActivities =
        none) ∧
    (∀ p rest, parentActivities = p :: rest →
      generateDetailedActivityReport gServers childActivities parentActivities =
        some (sortReport records ++ [summaryRecordOf p])) := by
  constructor
  · intro h
    subst h
    unfold generateDetailedActivityReport
    rw [hrecords]
    rfl
  · intro p rest h
    subst h
    unfold generateDetailedActivityReport
    rw [hrecords]
    rfl

/-- Witness for C5 (amended): with a two-record parent lookup the first
record's status becomes the summary status of a produced report. -/
theorem c5_witness_first_record_used :
    generateDetailedActivityReport (fun _ => none) []
      [{ id := "p1", computer_id := "-", activity_status := "succeeded" },
       { id := "p2", computer_id := "-", activity_status := "failed" }] =
      some (sortReport [] ++ [summaryRecordOf
        { id := "p1", computer_id := "-", activity_status := "succeeded" }]) :=
  (c5_amended_parent_lookup (fun _ => none) []
    [{ id := "p1", computer_id := "-", activity_status := "succeeded" },
     { id := "p2", computer_id := "-", activity_status := "failed" }] [] (by decide)).2
    { id := "p1", computer_id := "-", activity_status := "succeeded" }
    [{ id := "p2", computer_id := "-", activity_status := "failed" }] rfl

/-- C6: a missing `--script` or `--tag` flag makes argument resolution print
the usage text and exit the process (non-zero, per the spec's contract for
`program.help()`) before any remote call — server resolution, script
dispatch, or notification — is made. -/
theorem c6_missing_flags_help_exit (script : JsScriptVal) (tag : Option String)
    (dev : Bool) (parentActivityId : String) (fetchReport : Nat → Report)
    (fuel : Nat) (h : script = JsScriptVal.undef ∨ tag = none) :
    processCommandLineArgs script tag dev = none ∧
    (mainRun script tag dev parentActivityId fetchReport fuel).remoteCalls = [] ∧
    (mainRun script tag dev parentActivityId fetchReport fuel).outcome =
      MainOutcome.helpExit helpExitCode ∧
    helpExitCode ≠ 0 := by
  have hnone : processCommandLineArgs script tag dev = none := by
    rcases h with h | h
    · rw [h]
      rfl
    · rw [h]
      simp [processCommandLineArgs, truthyTag]
  refine ⟨hnone, ?_, ?_, by decide⟩
  · unfold mainRun
    rw [hnone]
  · unfold mainRun
    rw [hnone]

/-- Witness for C6: `--script` missing. -/
theorem c6_witness_missing_script :
    processCommandLineArgs JsScriptVal.undef (some "ply-servers") false = none ∧
    (mainRun JsScriptVal.undef (some "ply-servers") false "p" (fun _ => []) 1).remoteCalls = [] ∧
    (mainRun JsScriptVal.undef (some "ply-servers") false "p" (fun _ => []) 1).outcome =
      MainOutcome.helpExit helpExitCode ∧
    helpExitCode ≠ 0 :=
  c6_missing_flags_help_exit JsScriptVal.undef (some "ply-servers") false "p"
    (fun _ => []) 1 (Or.inl rfl)

/-- C7: when the polling loop exits on a terminal status, `main` emits exactly
one completion log entry; it is at informational level exactly when the final
status is `succeeded` or `canceled`, and at error level exactly when it is
`failed` (the only other status the loop can exit on, handled by the `else`
branch). -/
theorem c7_final_message_classification (script : JsScriptVal)
    (tag : Option String) (dev : Bool) (parentActivityId : String)
    (fetchReport : Nat → Report) (fuel : Nat) (st : String)
    (h : (mainRun script tag dev parentActivityId fetchReport fuel).outcome =
      MainOutcome.completed st) :
    (mainRun script tag dev parentActivityId fetchReport fuel).finalLogs.length = 1 ∧
    ((mainRun script tag dev parentActivityId fetchReport fuel).finalLogs =
        [(LogLevel.info, completionMessage st)] ↔
      (st = "succeeded" ∨ st = "canceled")) ∧
    ((mainRun script tag dev parentActivityId fetchReport fuel).finalLogs =
        [(LogLevel.error, completionMessage st)] ↔
      st = "failed") := by
  obtain ⟨s, rec, hl, hst, hlogs⟩ := mainRun_completed_inversion script tag dev
    parentActivityId fetchReport fuel st h
  have hterm : continuePolling st = false := by
    rw [← hst]
    exact pollLoop_finished_not_continue fetchReport fuel initLoopState s rec hl
  have hterm3 := (continuePolling_eq_false_iff st).mp hterm
  rw [hlogs]
  rcases hterm3 with h1 | h1 | h1 <;> subst h1 <;>
    exact ⟨by decide, by decide, by decide⟩

/-- A fetch stream succeeding on the first tick, for the C7 witness. -/
def c7Fetch : Nat → Report := fun _ =>
  [{ computer_name := "x", computer_id := "c", activity_id := "a", activity_status := "succeeded" }]

/-- Witness for C7 on a run that completes with `succeeded`. -/
theorem c7_witness_succeeded_run :
    (mainRun (JsScriptVal.num 28) (some "ply-servers") false "p" c7Fetch 1).finalLogs.length = 1 ∧
    ((mainRun (JsScriptVal.num 28) (some "ply-servers") false "p" c7Fetch 1).finalLogs =
        [(LogLevel.info, completionMessage "succeeded")] ↔
      ("succeeded" = "succeeded" ∨ "succeeded" = "canceled")) ∧
    ((mainRun (JsScriptVal.num 28) (some "ply-servers") false "p" c7Fetch 1).finalLogs =
        [(LogLevel.error, completionMessage "succeeded")] ↔
      "succeeded" = "failed") :=
  c7_final_message_classification (JsScriptVal.num 28) (some "ply-servers") false
    "p" c7Fetch 1 "succeeded" (by decide)

theorem data_foldl_append (f : ReportRecord → String) :
    ∀ (l : List ReportRecord) (acc : String),
      (l.foldl (fun a rec => a ++ f rec) acc).data =
        acc.data ++ (l.map fun rec => (f rec).data).flatten := by
  intro l
  induction l with
  | nil =>
    intro acc
    simp
  | cons x xs ih =>
    intro acc
    rw [List.foldl_cons, ih]
    simp [List.append_assoc]

theorem data_join_foldl :
    ∀ (l : List String) (acc : String),
      (l.foldl (fun r s => r ++ s) acc).data =
        acc.data ++ (l.map String.data).flatten := by
  intro l
  induction l with
  | nil =>
    intro acc
    simp
  | cons x xs ih =>
    intro acc
    rw [List.foldl_cons, ih]
    simp [List.append_assoc]

/-- C8: the text rendering produces one line per record, in report order, of
the exact form `<hostname>: <status>`, each terminated by a newline; in
particular the two-record report of the claim renders to exactly
`"x: succeeded\n** ALL (Summary) **: succeeded\n"`.  (The claim fixes only
the `computer_name` and `activity_status` fields; the other two fields, which
the rendering ignores, are filled arbitrarily.) -/
theorem c8_report_text_rendering :
    (∀ activityReport : Report,
      convertDetailedActivityReportToText activityReport =
        String.join (activityReport.map fun record =>
          record.computer_name ++ ": " ++ record.activity_status ++ "\n")) ∧
    convertDetailedActivityReportToText
      [{ computer_name := "x", computer_id := "c1", activity_id := "a1", activity_status := "succeeded" },
       { computer_name := "** ALL (Summary) **", computer_id := "-", activity_id := "a0", activity_status := "succeeded" }] =
      "x: succeeded\n** ALL (Summary) **: succeeded\n" := by
  constructor
  · intro r
    apply String.ext
    show (r.foldl (fun a rec =>
      a ++ (rec.computer_name ++ ": " ++ rec.activity_status ++ "\n")) "").data = _
    rw [data_foldl_append (fun rec =>
      rec.computer_name ++ ": " ++ rec.activity_status ++ "\n") r ""]
    show _ = ((r.map fun record =>
      record.computer_name ++ ": " ++ record.activity_status ++ "\n").foldl
        (fun a s => a ++ s) "").data
    rw [data_join_foldl]
    rw [List.map_map]
    rfl
  · decide

/-- C9: a supplied `--script` whose value parses (via `parseInt`) to `0` or
`NaN` is treated exactly like a missing flag — help is printed and the
process exits, with no remote call made; conversely, a remote call happens
only when the parsed script value is a nonzero number and the tag is a
non-empty string. -/
theorem c9_falsy_script_like_missing (script : JsScriptVal)
    (tag : Option String) (dev : Bool) (parentActivityId : String)
    (fetchReport : Nat → Report) (fuel : Nat) :
    ((script = JsScriptVal.num 0 ∨ script = JsScriptVal.nan) →
      processCommandLineArgs script tag dev = none ∧
      (mainRun script tag dev parentActivityId fetchReport fuel).remoteCalls = [] ∧
      (mainRun script tag dev parentActivityId fetchReport fuel).outcome =
        MainOutcome.helpExit helpExitCode) ∧
    ((mainRun script tag dev parentActivityId fetchReport fuel).remoteCalls ≠ [] →
      (∃ n : Int, script = JsScriptVal.num n ∧ n ≠ 0) ∧
      ∃ t, tag = some t ∧ t ≠ "") := by
  constructor
  · intro h
    have hnone : processCommandLineArgs script tag dev = none := by
      rcases h with h | h
      · rw [h]
        simp [processCommandLineArgs, truthyScript]
      · rw [h]
        rfl
    refine ⟨hnone, ?_, ?_⟩
    · unfold mainRun
      rw [hnone]
    · unfold mainRun
      rw [hnone]
  · intro h
    have hsome : ¬ processCommandLineArgs script tag dev = none := by
      intro hn
      apply h
      unfold mainRun
      rw [hn]
    have htt : truthyScript script = true ∧ truthyTag tag = true := by
      cases hA : truthyScript script <;> cases hB : truthyTag tag <;>
        simp_all [processCommandLineArgs]
    obtain ⟨hA, hB⟩ := htt
    constructor
    · cases script with
      | undef => exact absurd hA (by decide)
      | nan => exact absurd hA (by decide)
      | num n => exact ⟨n, rfl, by simpa [truthyScript] using hA⟩
    · cases tag with
      | none => exact absurd hB (by decide)
      | some t => exact ⟨t, rfl, by simpa [truthyTag] using hB⟩

/-- Witness for C9: `--script 0` short-circuits like a missing flag. -/
theorem c9_witness_script_zero :
    processCommandLineArgs (JsScriptVal.num 0) (some "ply-servers") false = none ∧
    (mainRun (JsScriptVal.num 0) (some "ply-servers") false "p" (fun _ => []) 1).remoteCalls = [] ∧
    (mainRun (JsScriptVal.num 0) (some "ply-servers") false "p" (fun _ => []) 1).outcome =
      MainOutcome.helpExit helpExitCode :=
  (c9_falsy_script_like_missing (JsScriptVal.num 0) (some "ply-servers") false "p"
    (fun _ => []) 1).1 (Or.inl rfl)
